import Mathlib

set_option autoImplicit false

/-!
Shallow embedding of the oxidate modal text editor (src/buffer.rs and
src/editor.rs).  Rust `String`s are modeled as `List Char` (the spec treats
columns as abstract character slots); machine-integer arithmetic (`u16` and
`usize`, debug profile) is modeled by checked operations that return `none`
on overflow; every Rust panic is modeled as `none`.
-/

namespace Oxidate

/-- Checked machine-integer subtraction: Rust `a - b` on `u16` or `usize`
panics on underflow in the debug profile. -/
def subChk (a b : Nat) : Option Nat :=
  if b ≤ a then some (a - b) else none

/-- Checked `u16` addition (panics past 65535 in the debug profile). -/
def addU16 (a b : Nat) : Option Nat :=
  if a + b < 65536 then some (a + b) else none

/-- Checked `usize` addition (panics past `2 ^ 64 - 1` in the debug profile). -/
def addUsize (a b : Nat) : Option Nat :=
  if a + b < 2 ^ 64 then some (a + b) else none

/-- Value of an `as u16` cast. -/
def castU16 (n : Nat) : Nat := n % 65536

/-- Rust `char::is_whitespace`, restricted to the ASCII whitespace characters
(the full Unicode White_Space set does not matter for any input considered
here). -/
def isWhitespace (c : Char) : Bool :=
  c = ' ' || c = '\t' || c = '\n' || c = '\r' || c = '\x0b' || c = '\x0c'

/-- Rust `String::insert` at character granularity: panics when the index is
past the end of the string. -/
def strInsert (l : List Char) (i : Nat) (c : Char) : Option (List Char) :=
  if i ≤ l.length then some (l.take i ++ c :: l.drop i) else none

/-- Rust `String::remove` at character granularity: panics when the index is
out of range. -/
def strRemove (l : List Char) (i : Nat) : Option (List Char) :=
  if i < l.length then some (l.take i ++ l.drop (i + 1)) else none

/-- Rust `Vec::insert`: panics when the index exceeds the length. -/
def vecInsert {α : Type} (l : List α) (i : Nat) (a : α) : Option (List α) :=
  if i ≤ l.length then some (l.take i ++ a :: l.drop i) else none

/-- Rust `str::rfind` over a character sequence: the index of the last
character satisfying the predicate. -/
def rfindIdx (p : Char → Bool) (l : List Char) : Option Nat :=
  (l.reverse.findIdx? p).map fun i => l.length - 1 - i

/-- Split a character sequence at every newline, keeping a (possibly empty)
final segment after the last newline. -/
def splitNl : List Char → List (List Char)
  | [] => [[]]
  | c :: cs =>
    if c = '\n' then [] :: splitNl cs
    else
      match splitNl cs with
      | [] => [[c]]
      | l :: ls => (c :: l) :: ls

/-- Strip one trailing carriage return (the `\r` of a `\r\n` line ending). -/
def stripCr (l : List Char) : List Char :=
  if l.getLast? = some '\r' then l.dropLast else l

/-- Rust `str::lines`: split on `\n` dropping the terminators, strip a `\r`
that immediately preceded a `\n`, and drop the empty final segment produced by
a trailing newline.  A final segment not terminated by `\n` keeps a trailing
`\r`, as in Rust. -/
def rustLines (s : List Char) : List (List Char) :=
  match (splitNl s).getLast? with
  | some [] => (splitNl s).dropLast.map stripCr
  | some l => (splitNl s).dropLast.map stripCr ++ [l]
  | none => []

/-- Rust `Vec<String>::join("\n")`. -/
def joinNl : List (List Char) → List Char
  | [] => []
  | [l] => l
  | l :: ls => l ++ '\n' :: joinNl ls

/-- Decimal digits of a natural number, as characters. -/
def natChars (n : Nat) : List Char := (Nat.repr n).data

/-- UTF-8 byte length of a character sequence (Rust `str::as_bytes().len()`). -/
def utf8Len (l : List Char) : Nat := (l.map Char.utf8Size).sum

/-- One character of Rust `{:?}` Debug formatting for `str`
(`char::escape_debug` with double quotes escaped, single quotes not): the nul
character and the named short escapes, doubled backslash and quote, and
`\u{...}` (lowercase hex, no leading zeros) for the remaining ASCII control
characters including delete.  Characters above ASCII are passed through
unchanged; Rust consults Unicode printability tables there, so the model is
exact for ASCII path contents. -/
def escapeDebugChar (c : Char) : List Char :=
  if c = Char.ofNat 0 then ['\\', '0']
  else if c = '\t' then ['\\', 't']
  else if c = '\r' then ['\\', 'r']
  else if c = '\n' then ['\\', 'n']
  else if c = '\\' then ['\\', '\\']
  else if c = '\"' then ['\\', '\"']
  else if c.toNat < 32 ∨ c.toNat = 127 then
    '\\' :: 'u' :: '\x7b' :: Nat.toDigits 16 c.toNat ++ ['\x7d']
  else [c]

/-- Rust `{:?}` Debug formatting of a string body: each character escaped. -/
def escapeDebug (p : List Char) : List Char :=
  (p.map escapeDebugChar).flatten

/-- Rust `{:?}` debug formatting of a path string: the debug-escaped body
wrapped in double quotes, as `impl Debug for str` prints it. -/
def quoteDebug (p : List Char) : List Char := '\"' :: escapeDebug p ++ ['\"']

theorem escapeDebug_of_plain {p : List Char} (h : ∀ c ∈ p, escapeDebugChar c = [c]) :
    escapeDebug p = p := by
  induction p with
  | nil => rfl
  | cons c t ih =>
    have ht := ih fun d hd => h d (List.mem_cons_of_mem c hd)
    simp only [escapeDebug, List.map_cons, List.flatten_cons] at ht ⊢
    rw [h c (List.mem_cons_self c t), ht]
    rfl

/-- The text buffer of src/buffer.rs: an optional file path and the lines. -/
structure Buffer where
  file : Option (List Char)
  lines : List (List Char)
deriving DecidableEq

namespace Buffer

/-- `Buffer::from_file`: with a path, the file's contents split with
`str::lines`; with no path, a single empty line.  `std::fs::read_to_string`
is modeled by passing the file's contents directly. -/
def from_file (file : Option (List Char)) (contents : List Char) : Buffer :=
  match file with
  | some f => { file := some f, lines := rustLines contents }
  | none => { file := none, lines := [[]] }

/-- `Buffer::get`. -/
def get (b : Buffer) (line : Nat) : Option (List Char) :=
  if b.lines.length > line then b.lines.get? line else none

/-- `Buffer::len`. -/
def len (b : Buffer) : Nat := b.lines.length

/-- `Buffer::insert`: no-op when the row is out of range; `String::insert`
panics when the column is past the end of the line.  Callers pass indices
already cast to `u16` and the function widens them back to `usize`, which is
lossless. -/
def insert (b : Buffer) (x y : Nat) (c : Char) : Option Buffer :=
  match b.lines.get? y with
  | none => some b
  | some line => (strInsert line x c).map fun l2 => { b with lines := b.lines.set y l2 }

/-- `Buffer::delete`: no-op when the row is out of range; `String::remove`
panics when the column is out of range. -/
def delete (b : Buffer) (x y : Nat) : Option Buffer :=
  match b.lines.get? y with
  | none => some b
  | some line => (strRemove line x).map fun l2 => { b with lines := b.lines.set y l2 }

/-- `Buffer::remove_line`. -/
def remove_line (b : Buffer) (line : Nat) : Buffer :=
  if b.len > line then { b with lines := b.lines.eraseIdx line } else b

/-- The message built by `Buffer::save` on success, following the format
string `"{:?} {}L, {}B written"` of src/buffer.rs: the debug-quoted path, the
line count and the byte count. -/
def saveMessage (f : List Char) (n k : Nat) : List Char :=
  quoteDebug f ++ [' '] ++ natChars n ++ ['L', ',', ' '] ++ natChars k ++
    ('B' :: ' ' :: "written".data)

/-- `Buffer::save`: with no path, an `io::Error`; otherwise the newline-joined
contents are written (the filesystem write itself is modeled as succeeding)
and the returned message quotes the path and reports the line and byte counts.
The result pairs the written contents with the message; `save` takes `&self`,
so the buffer is unchanged. -/
def save (b : Buffer) : Except (List Char) (List Char × List Char) :=
  match b.file with
  | some f =>
    Except.ok (joinNl b.lines,
      saveMessage f b.lines.length (utf8Len (joinNl b.lines)))
  | none => Except.error ("No file specified to save the buffer.".data)

end Buffer

/-- Editor modes (src/editor.rs `enum Mode`). -/
inductive Mode
  | Normal
  | Insert
  | Visual
  | Command
deriving DecidableEq

/-- Editing actions (src/editor.rs `enum Action`). -/
inductive Action
  | Quit
  | MoveUp
  | MoveDown
  | MoveRight
  | MoveLeft
  | MoveWordForward
  | MoveWordBackward
  | MoveWordEnd
  | MoveToTop
  | MoveToBottom
  | OpenLineAbove
  | OpenLineBelow
  | InsertCharAtCursorPos (c : Char)
  | DeleteChar
  | DeleteCharAtCursorPos
  | DeleteCurrentLine
  | NewLine
  | EnterMode (m : Mode)
  | SetWaitingCmd (c : Char)
deriving DecidableEq

/-- The key codes the editor inspects; `otherKey` stands for every crossterm
key code the editor never matches. -/
inductive KeyCode
  | char (c : Char)
  | up
  | down
  | left
  | right
  | esc
  | enter
  | backspace
  | otherKey
deriving DecidableEq

/-- Input events: a key press (with its control-modifier flag), a terminal
resize, or any other crossterm event. -/
inductive Event
  | key (code : KeyCode) (ctrl : Bool)
  | resize (w h : Nat)
  | otherEvent
deriving DecidableEq

/-- The editor state of src/editor.rs (the `stdout` handle is omitted:
drawing is output-only).  `cur_pos` and `scur_pos` are `(column, row)`. -/
structure Editor where
  buffer : Buffer
  cur_pos : Nat × Nat
  scur_pos : Option (Nat × Nat)
  mode : Mode
  size : Nat × Nat
  vtop : Nat
  vleft : Nat
  waiting_cmd : Option Char
  command_buffer : List Char
deriving DecidableEq

namespace Editor

/-- `Editor::line_number_width`; `self.buffer.len() - 1` underflows on a
zero-line buffer. -/
def line_number_width (e : Editor) : Option Nat := do
  let total ← subChk e.buffer.len 1
  pure (max (natChars total).length 3 + 2)

/-- `Editor::vwidth`. -/
def vwidth (e : Editor) : Option Nat := do
  let w ← line_number_width e
  let a ← subChk e.size.1 w
  subChk a 1

/-- `Editor::vheight`. -/
def vheight (e : Editor) : Option Nat := subChk e.size.2 2

/-- `Editor::viewport_line`; `self.vtop + n` is a checked `u16` addition. -/
def viewport_line (e : Editor) (n : Nat) : Option (Option (List Char)) :=
  (addU16 e.vtop n).map fun bl => e.buffer.get bl

/-- `Editor::line_length`; the length is truncated by an `as u16` cast. -/
def line_length (e : Editor) : Option Nat := do
  let ol ← viewport_line e (castU16 e.cur_pos.2)
  match ol with
  | some line => pure (castU16 line.length)
  | none => pure 0

/-- `Editor::buffer_line`. -/
def buffer_line (e : Editor) : Option Nat :=
  addU16 e.vtop (castU16 e.cur_pos.2)

/-- One arm of the `run` loop's `match action`: applies an action to the
editor state.  `none` is a panic; the boolean is true exactly for
`Action::Quit`, which breaks the loop. -/
def applyAction (e : Editor) (a : Action) : Option (Editor × Bool) :=
  match a with
  | .Quit => some (e, true)
  | .MoveUp => do
    let row := e.cur_pos.2 - 1
    let line ← e.buffer.lines.get? row
    pure ({ e with cur_pos := (min e.cur_pos.1 line.length, row) }, false)
  | .MoveDown => do
    let (col1, row1) ←
      if e.cur_pos.2 + 1 < e.buffer.lines.length then do
        let line ← e.buffer.lines.get? (e.cur_pos.2 + 1)
        pure (min e.cur_pos.1 line.length, e.cur_pos.2 + 1)
      else pure e.cur_pos
    let vh ← vheight e
    let row2 ← if row1 ≥ vh then subChk vh 1 else pure row1
    pure ({ e with cur_pos := (col1, row2) }, false)
  | .MoveLeft =>
    let c1 := e.cur_pos.1 - 1
    let c2 := if c1 < e.vleft then e.vleft else c1
    some ({ e with cur_pos := (c2, e.cur_pos.2) }, false)
  | .MoveRight => do
    let c1 ← addUsize e.cur_pos.1 1
    let ll ← line_length e
    let c2 := if c1 ≥ ll then ll else c1
    let vw ← vwidth e
    let c3 ← if c2 ≥ vw then subChk vw 1 else pure c2
    pure ({ e with cur_pos := (c3, e.cur_pos.2) }, false)
  | .MoveWordForward => do
    let line ← e.buffer.lines.get? e.cur_pos.2
    if e.cur_pos.1 ≤ line.length then
      match (line.drop e.cur_pos.1).findIdx? isWhitespace with
      | some pos => pure ({ e with cur_pos := (e.cur_pos.1 + pos + 1, e.cur_pos.2) }, false)
      | none => pure ({ e with cur_pos := (line.length, e.cur_pos.2) }, false)
    else none
  | .MoveWordBackward => do
    let line ← e.buffer.lines.get? e.cur_pos.2
    if e.cur_pos.1 ≤ line.length then
      match rfindIdx isWhitespace (line.take e.cur_pos.1) with
      | some pos => pure ({ e with cur_pos := (pos, e.cur_pos.2) }, false)
      | none => pure ({ e with cur_pos := (line.length, e.cur_pos.2) }, false)
    else none
  | .MoveWordEnd => do
    let line ← e.buffer.lines.get? e.cur_pos.2
    let c ← subChk line.length 1
    pure ({ e with cur_pos := (c, e.cur_pos.2) }, false)
  | .MoveToTop => some ({ e with cur_pos := (0, 0) }, false)
  | .MoveToBottom => do
    let r ← subChk e.buffer.lines.length 1
    pure ({ e with cur_pos := (0, r) }, false)
  | .OpenLineAbove => do
    let lines2 ← vecInsert e.buffer.lines e.cur_pos.2 []
    pure ({ e with buffer := { e.buffer with lines := lines2 }, mode := .Insert,
                   cur_pos := (0, e.cur_pos.2) }, false)
  | .OpenLineBelow => do
    let lines2 ← vecInsert e.buffer.lines (e.cur_pos.2 + 1) []
    let r ← addUsize e.cur_pos.2 1
    pure ({ e with buffer := { e.buffer with lines := lines2 }, mode := .Insert,
                   cur_pos := (0, r) }, false)
  | .InsertCharAtCursorPos c => do
    let bl ← buffer_line e
    let b2 ← e.buffer.insert (castU16 e.cur_pos.1) bl c
    let c1 ← addUsize e.cur_pos.1 1
    pure ({ e with buffer := b2, cur_pos := (c1, e.cur_pos.2) }, false)
  | .DeleteChar => do
    if e.cur_pos.1 = 0 ∧ 0 < e.cur_pos.2 then do
      let current_line ← e.buffer.lines.get? e.cur_pos.2
      let lines1 := e.buffer.lines.eraseIdx e.cur_pos.2
      let row1 := e.cur_pos.2 - 1
      let prev ← lines1.get? row1
      pure ({ e with buffer := { e.buffer with lines := lines1.set row1 (prev ++ current_line) },
                     cur_pos := (prev.length, row1) }, false)
    else
      match e.buffer.lines.get? e.cur_pos.2 with
      | none => pure (e, false)
      | some line => do
        let line2 ←
          if e.cur_pos.1 < line.length then do
            let i ← subChk e.cur_pos.1 1
            strRemove line i
          else pure line.dropLast
        pure ({ e with buffer := { e.buffer with lines := e.buffer.lines.set e.cur_pos.2 line2 },
                       cur_pos := (e.cur_pos.1 - 1, e.cur_pos.2) }, false)
  | .DeleteCharAtCursorPos => do
    let bl ← buffer_line e
    let b2 ← e.buffer.delete (castU16 e.cur_pos.1) bl
    pure ({ e with buffer := b2 }, false)
  | .DeleteCurrentLine => do
    let bl ← buffer_line e
    pure ({ e with buffer := e.buffer.remove_line bl,
                   cur_pos := (e.cur_pos.1, e.cur_pos.2 - 1) }, false)
  | .NewLine => do
    let lines0 :=
      if e.cur_pos.2 ≥ e.buffer.lines.length then e.buffer.lines ++ [[]] else e.buffer.lines
    let line ← lines0.get? e.cur_pos.2
    let lines1 ←
      if e.cur_pos.1 < line.length then
        vecInsert (lines0.set e.cur_pos.2 (line.take e.cur_pos.1)) (e.cur_pos.2 + 1)
          (line.drop e.cur_pos.1)
      else
        vecInsert lines0 (e.cur_pos.2 + 1) []
    let r ← addUsize e.cur_pos.2 1
    pure ({ e with buffer := { e.buffer with lines := lines1 }, cur_pos := (0, r) }, false)
  | .EnterMode nm => do
    let e1 ←
      if nm = Mode.Normal then
        match e.mode with
        | Mode.Command => do
          let p ← e.scur_pos
          pure { e with cur_pos := p, scur_pos := none, command_buffer := [] }
        | Mode.Insert => pure { e with cur_pos := (e.cur_pos.1 - 1, e.cur_pos.2) }
        | _ => pure e
      else if nm = Mode.Command then do
        let r ← subChk e.size.2 1
        pure { e with scur_pos := some e.cur_pos, cur_pos := (0, r) }
      else pure e
    pure ({ e1 with mode := nm }, false)
  | .SetWaitingCmd c => some ({ e with waiting_cmd := some c }, false)

/-- `Editor::handle_waiting_cmd`. -/
def handle_waiting_cmd (cmd : Char) (ev : Event) : Option Action :=
  if cmd = 'd' then
    match ev with
    | .key (.char 'd') _ => some .DeleteCurrentLine
    | _ => none
  else if cmd = 'g' then
    match ev with
    | .key (.char 'g') _ => some .MoveToTop
    | _ => none
  else none

/-- `Editor::handle_normal_mode`.  It mutates the editor: a pending leader is
consumed, and the `a` key advances the column (checked `usize` addition)
before producing the mode switch. -/
def handle_normal_mode (e : Editor) (ev : Event) : Option (Editor × Option Action) :=
  match e.waiting_cmd with
  | some cmd => some ({ e with waiting_cmd := none }, handle_waiting_cmd cmd ev)
  | none =>
    match ev with
    | .key code _ =>
      match code with
      | .char 'q' => some (e, some .Quit)
      | .up => some (e, some .MoveUp)
      | .char 'k' => some (e, some .MoveUp)
      | .down => some (e, some .MoveDown)
      | .char 'j' => some (e, some .MoveDown)
      | .right => some (e, some .MoveRight)
      | .char 'l' => some (e, some .MoveRight)
      | .left => some (e, some .MoveLeft)
      | .char 'h' => some (e, some .MoveLeft)
      | .char 'w' => some (e, some .MoveWordForward)
      | .char 'b' => some (e, some .MoveWordBackward)
      | .char '$' => some (e, some .MoveWordEnd)
      | .char 'G' => some (e, some .MoveToBottom)
      | .char 'O' => some (e, some .OpenLineAbove)
      | .char 'o' => some (e, some .OpenLineBelow)
      | .char 'x' => some (e, some .DeleteCharAtCursorPos)
      | .char 'i' => some (e, some (.EnterMode .Insert))
      | .char 'a' =>
        (addUsize e.cur_pos.1 1).map fun c =>
          ({ e with cur_pos := (c, e.cur_pos.2) }, some (.EnterMode .Insert))
      | .char 'v' => some (e, some (.EnterMode .Visual))
      | .char ':' => some (e, some (.EnterMode .Command))
      | .char 'd' => some (e, some (.SetWaitingCmd 'd'))
      | .char 'g' => some (e, some (.SetWaitingCmd 'g'))
      | .char _ => some (e, none)
      | _ => some (e, none)
    | _ => some (e, none)

/-- `Editor::handle_visual_mode`. -/
def handle_visual_mode (ev : Event) : Option Action :=
  match ev with
  | .key (.char 'c') true => some (.EnterMode .Normal)
  | .key .esc _ => some (.EnterMode .Normal)
  | .key (.char 'h') _ => some .MoveLeft
  | .key (.char 'j') _ => some .MoveDown
  | .key (.char 'k') _ => some .MoveUp
  | .key (.char 'l') _ => some .MoveRight
  | _ => none

/-- Rust `str::trim` over the modeled whitespace set. -/
def trim (l : List Char) : List Char :=
  ((l.dropWhile isWhitespace).reverse.dropWhile isWhitespace).reverse

/-- `Editor::process_command`. -/
def process_command (command : List Char) : Option Action :=
  if command = "q".data then some .Quit
  else if command = "wq".data then some .Quit
  else some (.EnterMode .Normal)

/-- `Editor::handle_command_mode`.  It mutates the command-line accumulator. -/
def handle_command_mode (e : Editor) (ev : Event) : Editor × Option Action :=
  match ev with
  | .key (.char 'c') true => ({ e with command_buffer := [] }, some (.EnterMode .Normal))
  | .key .esc _ => ({ e with command_buffer := [] }, some (.EnterMode .Normal))
  | .key (.char c) _ => ({ e with command_buffer := e.command_buffer ++ [c] }, none)
  | .key .backspace _ =>
    if e.command_buffer.isEmpty then (e, some (.EnterMode .Normal))
    else ({ e with command_buffer := e.command_buffer.dropLast }, none)
  | .key .enter _ =>
    ({ e with command_buffer := [] }, process_command (trim e.command_buffer))
  | _ => (e, none)

/-- `Editor::handle_insert_mode`. -/
def handle_insert_mode (ev : Event) : Option Action :=
  match ev with
  | .key (.char 'c') true => some (.EnterMode .Normal)
  | .key .esc _ => some (.EnterMode .Normal)
  | .key (.char c) _ => some (.InsertCharAtCursorPos c)
  | .key .enter _ => some .NewLine
  | .key .backspace _ => some .DeleteChar
  | _ => none

/-- `Editor::handle_event`: a resize event first updates the stored terminal
size, then the event is dispatched to the current mode's handler. -/
def handle_event (e : Editor) (ev : Event) : Option (Editor × Option Action) :=
  let e1 :=
    match ev with
    | .resize w h => { e with size := (castU16 w, castU16 h) }
    | _ => e
  match e1.mode with
  | .Normal => handle_normal_mode e1 ev
  | .Insert => some (e1, handle_insert_mode ev)
  | .Visual => some (e1, handle_visual_mode ev)
  | .Command => some (handle_command_mode e1 ev)

/-- One iteration of `Editor::run`: classify the event, then apply the
produced action; the boolean is the loop-break (quit) flag. -/
def step (e : Editor) (ev : Event) : Option (Editor × Bool) := do
  let (e1, act) ← handle_event e ev
  match act with
  | none => pure (e1, false)
  | some a => applyAction e1 a

/-- `Editor::run` over a list of input events: stops at `Quit` (returning the
final state) or at a panic (`none`). -/
def run : Editor → List Event → Option Editor
  | e, [] => some e
  | e, ev :: evs =>
    match step e ev with
    | none => none
    | some (e1, true) => some e1
    | some (e1, false) => run e1 evs

/-- `Editor::new`; the terminal size is a parameter standing for
`terminal::size()`. -/
def initEditor (b : Buffer) (size : Nat × Nat) : Editor :=
  { buffer := b, cur_pos := (0, 0), scur_pos := none, mode := .Normal,
    size := size, vtop := 0, vleft := 0, waiting_cmd := none, command_buffer := [] }

end Editor

theorem splitNl_ne_nil (s : List Char) : splitNl s ≠ [] := by
  cases s with
  | nil => simp [splitNl]
  | cons c cs =>
    simp only [splitNl]
    split
    · simp
    · cases h : splitNl cs <;> simp

theorem joinNl_splitNl (s : List Char) : joinNl (splitNl s) = s := by
  induction s with
  | nil => rfl
  | cons c cs ih =>
    simp only [splitNl]
    by_cases hc : c = '\n'
    · subst hc
      rw [if_pos rfl]
      rcases h : splitNl cs with _ | ⟨l, ls⟩
      · exact absurd h (splitNl_ne_nil cs)
      · rw [h] at ih
        simpa [joinNl] using ih
    · rw [if_neg hc]
      rcases h : splitNl cs with _ | ⟨l, ls⟩
      · exact absurd h (splitNl_ne_nil cs)
      · rw [h] at ih
        cases ls with
        | nil => simp only [joinNl] at ih ⊢; rw [ih]
        | cons l2 ls2 =>
          simp only [joinNl] at ih ⊢
          rw [List.cons_append, ih]

theorem mem_of_mem_splitNl {s l : List Char} (hl : l ∈ splitNl s) {c : Char}
    (hc : c ∈ l) : c ∈ s := by
  induction s generalizing l with
  | nil =>
    simp [splitNl] at hl
    subst hl
    exact absurd hc (List.not_mem_nil c)
  | cons a cs ih =>
    simp only [splitNl] at hl
    by_cases ha : a = '\n'
    · rw [if_pos ha] at hl
      rcases List.mem_cons.mp hl with rfl | hl2
      · exact absurd hc (List.not_mem_nil c)
      · exact List.mem_cons_of_mem a (ih hl2 hc)
    · rw [if_neg ha] at hl
      rcases h : splitNl cs with _ | ⟨m, ms⟩
      · exact absurd h (splitNl_ne_nil cs)
      · rw [h] at hl
        rcases List.mem_cons.mp hl with rfl | hl2
        · rcases List.mem_cons.mp hc with rfl | hcm
          · exact List.mem_cons_self c cs
          · exact List.mem_cons_of_mem a (ih (h ▸ List.mem_cons_self m ms) hcm)
        · exact List.mem_cons_of_mem a (ih (h ▸ List.mem_cons_of_mem m hl2) hc)

theorem stripCr_of_not_mem {l : List Char} (h : '\r' ∉ l) : stripCr l = l := by
  unfold stripCr
  split
  · next hlast => exact absurd (List.dropLast_append_getLast? _ hlast ▸
      List.mem_append_right l.dropLast (List.mem_singleton_self '\r')) h
  · rfl

theorem map_stripCr_of_not_mem {L : List (List Char)} (h : ∀ l ∈ L, '\r' ∉ l) :
    L.map stripCr = L := by
  induction L with
  | nil => rfl
  | cons x t ih =>
    rw [List.map_cons, stripCr_of_not_mem (h x (List.mem_cons_self x t)),
      ih fun l hl => h l (List.mem_cons_of_mem x hl)]

theorem joinNl_append_nil (init : List (List Char)) :
    joinNl (init ++ [[]]) = if init = [] then [] else joinNl init ++ ['\n'] := by
  induction init with
  | nil => rfl
  | cons x t ih =>
    cases t with
    | nil => simp [joinNl]
    | cons y t2 =>
      rw [if_neg (by simp)]
      have h2 : joinNl ((y :: t2) ++ [[]]) = joinNl (y :: t2) ++ ['\n'] := by
        rw [ih, if_neg (by simp)]
      calc joinNl ((x :: y :: t2) ++ [[]])
          = x ++ '\n' :: joinNl ((y :: t2) ++ [[]]) := by
            rw [List.cons_append]
            cases h3 : (y :: t2) ++ [[]] with
            | nil => simp at h3
            | cons z zs => rw [joinNl]; cases zs <;> simp_all [joinNl]
        _ = x ++ '\n' :: (joinNl (y :: t2) ++ ['\n']) := by rw [h2]
        _ = joinNl (x :: y :: t2) ++ ['\n'] := by simp [joinNl]

theorem roundtrip_no_cr (t : List Char) (h : '\r' ∉ t) :
    joinNl (rustLines t) = t ∨ t = joinNl (rustLines t) ++ ['\n'] := by
  have hchars : ∀ l ∈ (splitNl t).dropLast, '\r' ∉ l := by
    intro l hl hcr
    exact h (mem_of_mem_splitNl ((List.dropLast_sublist (splitNl t)).mem hl) hcr)
  unfold rustLines
  rcases hlast : (splitNl t).getLast? with _ | l
  · exact absurd (List.getLast?_eq_none_iff.mp hlast) (splitNl_ne_nil t)
  · have hsplit : (splitNl t).dropLast ++ [l] = splitNl t :=
      List.dropLast_append_getLast? l hlast
    have ht : joinNl ((splitNl t).dropLast ++ [l]) = t := by
      rw [hsplit, joinNl_splitNl]
    by_cases hl : l = []
    · subst hl
      dsimp only
      simp only [map_stripCr_of_not_mem hchars]
      rw [joinNl_append_nil] at ht
      by_cases hd : (splitNl t).dropLast = []
      · left
        rw [hd]
        rw [if_pos hd] at ht
        simpa [joinNl] using ht.symm
      · right
        rw [if_neg hd] at ht
        exact ht.symm
    · left
      cases l with
      | nil => exact absurd rfl hl
      | cons a as =>
        dsimp only
        simp only [map_stripCr_of_not_mem hchars]
        exact ht

theorem path_infix_saveMessage (f : List Char) (n k : Nat) :
    List.IsInfix (escapeDebug f) (Buffer.saveMessage f n k) :=
  ⟨['\"'], '\"' :: ' ' :: (natChars n ++ ['L', ',', ' '] ++ natChars k ++
    ('B' :: ' ' :: "written".data)), by simp [Buffer.saveMessage, quoteDebug]⟩

theorem lineCount_infix_saveMessage (f : List Char) (n k : Nat) :
    List.IsInfix (natChars n ++ ['L']) (Buffer.saveMessage f n k) :=
  ⟨'\"' :: escapeDebug f ++ ['\"', ' '],
    ',' :: ' ' :: (natChars k ++ ('B' :: ' ' :: "written".data)),
    by simp [Buffer.saveMessage, quoteDebug]⟩

theorem byteCount_infix_saveMessage (f : List Char) (n k : Nat) :
    List.IsInfix (natChars k ++ ['B']) (Buffer.saveMessage f n k) :=
  ⟨'\"' :: escapeDebug f ++ ['\"', ' '] ++ natChars n ++ ['L', ',', ' '],
    ' ' :: "written".data,
    by simp [Buffer.saveMessage, quoteDebug]⟩

theorem handle_normal_mode_frame {e : Editor} {ev : Event} {r : Editor × Option Action}
    (h : Editor.handle_normal_mode e ev = some r) :
    r.1.buffer = e.buffer ∧ r.1.mode = e.mode ∧ r.1.scur_pos = e.scur_pos := by
  unfold Editor.handle_normal_mode at h
  repeat' split at h
  all_goals
    first
    | (obtain rfl := Option.some.inj h; exact ⟨rfl, rfl, rfl⟩)
    | (rw [Option.map_eq_some'] at h
       obtain ⟨c2, hc2, rfl⟩ := h
       exact ⟨rfl, rfl, rfl⟩)

theorem handle_event_frame {e : Editor} {ev : Event} {r : Editor × Option Action}
    (h : Editor.handle_event e ev = some r) :
    r.1.buffer = e.buffer ∧ r.1.mode = e.mode ∧ r.1.scur_pos = e.scur_pos := by
  unfold Editor.handle_event at h
  rcases ev with ⟨code, ctrl⟩ | ⟨w, hh⟩ | _ <;> dsimp only at h <;> split at h
  all_goals
    first
    | (have hf := handle_normal_mode_frame h; exact hf)
    | (obtain rfl := Option.some.inj h; exact ⟨rfl, rfl, rfl⟩)
    | (obtain rfl := Option.some.inj h
       unfold Editor.handle_command_mode
       repeat' split
       all_goals exact ⟨rfl, rfl, rfl⟩)

/-- Whenever the editor is in command mode, the anchor position saved on entry
is present. -/
abbrev AnchorInv (e : Editor) : Prop :=
  e.mode = Mode.Command → e.scur_pos.isSome = true

theorem applyAction_anchor {e : Editor} {a : Action} {r : Editor × Bool}
    (hInv : AnchorInv e) (h : Editor.applyAction e a = some r) : AnchorInv r.1 := by
  cases a
  case DeleteChar =>
    rcases hget : e.buffer.lines.get? e.cur_pos.2 with _ | line <;>
      simp only [Editor.applyAction, hget, Option.bind_eq_bind', Option.some_bind,
        Option.bind_eq_some, Option.pure_def, Option.some.injEq, ite_eq_iff] at h <;>
      aesop
  case EnterMode nm =>
    rcases hm : e.mode <;> rcases hnm : nm <;>
      simp only [Editor.applyAction, Option.bind_eq_bind', Option.some_bind,
        Option.bind_eq_some, Option.pure_def, Option.some.injEq, ite_eq_iff, hm, hnm] at h <;>
      aesop
  all_goals
    simp only [Editor.applyAction, Option.bind_eq_bind', Option.some_bind, Option.bind_eq_some,
      Option.pure_def, Option.some.injEq, ite_eq_iff] at h
  all_goals aesop

theorem step_anchor {e : Editor} {ev : Event} {r : Editor × Bool}
    (hInv : AnchorInv e) (h : Editor.step e ev = some r) : AnchorInv r.1 := by
  simp only [Editor.step, Option.bind_eq_bind', Option.bind_eq_some, Option.pure_def] at h
  obtain ⟨⟨e1, act⟩, he1, h2⟩ := h
  have hf := handle_event_frame he1
  have hInv1 : AnchorInv e1 := by
    intro hc
    rw [hf.2.2]
    exact hInv (hf.2.1 ▸ hc)
  cases act with
  | none =>
    obtain rfl := Option.some.inj h2
    exact hInv1
  | some a => exact applyAction_anchor hInv1 h2

theorem run_anchor {e : Editor} {evs : List Event} {e2 : Editor}
    (hInv : AnchorInv e) (h : Editor.run e evs = some e2) : AnchorInv e2 := by
  induction evs generalizing e with
  | nil =>
    obtain rfl := Option.some.inj h
    exact hInv
  | cons ev evs ih =>
    simp only [Editor.run] at h
    rcases hs : Editor.step e ev with _ | ⟨e1, q⟩
    · rw [hs] at h
      exact absurd h (by simp)
    · rw [hs] at h
      cases q with
      | true =>
        obtain rfl := Option.some.inj h
        exact step_anchor hInv hs
      | false => exact ih (step_anchor hInv hs) h

example : rustLines ("a\r\nb".data) = ["a".data, "b".data] := by decide

example : rustLines ("a\nb\n".data) = ["a".data, "b".data] := by decide

example : rustLines [] = [] := by decide

example : rustLines ("a\r".data) = ["a\r".data] := by decide

example : joinNl ["ab".data, "c".data] = "ab\nc".data := by decide

example : quoteDebug ("a\\b".data) = "\"a\\\\b\"".data := by decide

example : quoteDebug ("a\"b".data) = "\"a\\\"b\"".data := by decide

example : escapeDebugChar '\x1b' = "\\u\x7b1b\x7d".data := by decide

example : quoteDebug ("f".data) = "\"f\"".data := by decide

/-- C1: the spec's invariant says the line count stays at least 1 after every
sequence of buffer operations, including repeated `remove_line` calls and the
`dd` (delete-current-line) action.  The code violates it: `remove_line` on a
one-line buffer removes the last line, and the `dd` key sequence drives a
one-line buffer to zero lines. -/
theorem c1_remove_line_empties_buffer :
    (Buffer.remove_line ⟨none, [['x']]⟩ 0).lines.length = 0 ∧
    (Editor.run (Editor.initEditor ⟨none, [['x']]⟩ (80, 24))
        [Event.key (KeyCode.char 'd') false, Event.key (KeyCode.char 'd') false]).map
      (fun e => e.buffer.lines.length) = some 0 := by
  constructor
  · decide
  · decide

/-- C2: the claim says `insert_char(col, row, ch)` appends at the end of the
line when `col` exceeds the line length and never panics.  The code instead
panics there (`String::insert` with an out-of-range index); the row
out-of-range case is indeed a no-op. -/
theorem c2_insert_past_line_end_panics :
    Buffer.insert ⟨none, [['a', 'b']]⟩ 5 0 'c' = none ∧
    Buffer.insert ⟨none, [['a', 'b']]⟩ 0 7 'c' = some ⟨none, [['a', 'b']]⟩ := by
  constructor
  · decide
  · decide

/-- C3: the claim says `delete_char(col, row)` is a no-op whenever `col` or
`row` is out of range, including `col` at or past the line length as with the
`x` command on an empty line.  The code panics there: `String::remove` with an
out-of-range index, reached by `x` on the empty line; the row out-of-range
case is a no-op. -/
theorem c3_delete_out_of_range_panics :
    Buffer.delete ⟨none, [[]]⟩ 0 0 = none ∧
    Editor.step (Editor.initEditor ⟨none, [[]]⟩ (80, 24))
      (Event.key (KeyCode.char 'x') false) = none ∧
    Buffer.delete ⟨none, [['a']]⟩ 9 0 = none ∧
    Buffer.delete ⟨none, [['a']]⟩ 0 5 = some ⟨none, [['a']]⟩ := by
  refine ⟨by decide, by decide, by decide, by decide⟩

/-- C4: the claim says resolving `"wq"` attempts a save and then quits.  The
code resolves `"wq"` exactly like `"q"`: `process_command` returns `Quit`
with no save anywhere on the path, and the `Quit` action leaves the editor
state (including its buffer) untouched when the loop breaks. -/
theorem c4_wq_quits_without_saving :
    Editor.process_command ("wq".data) = some Action.Quit ∧
    Editor.process_command ("wq".data) = Editor.process_command ("q".data) ∧
    Editor.process_command ("zz".data) = some (Action.EnterMode Mode.Normal) ∧
    Editor.applyAction (Editor.initEditor ⟨some ("f".data), [['a']]⟩ (80, 24)) Action.Quit =
      some (Editor.initEditor ⟨some ("f".data), [['a']]⟩ (80, 24), true) := by
  refine ⟨by decide, by decide, by decide, by decide⟩

/-- C5: the claim says that after every completed action the cursor column is
at most the current line length, and that `a` followed by an Insert-mode
action never reads past the line end.  The code violates it: on the empty
line, the `a` key completes `EnterMode(Insert)` with column 1 > line length 0,
and the following character insertion panics. -/
theorem c5_append_breaks_column_invariant :
    (Editor.step (Editor.initEditor ⟨none, [[]]⟩ (80, 24))
        (Event.key (KeyCode.char 'a') false)).map (fun r => (r.1.cur_pos, r.1.mode)) =
      some ((1, 0), Mode.Insert) ∧
    ((Editor.initEditor ⟨none, [[]]⟩ (80, 24)).buffer.lines.get? 0).map List.length =
      some 0 ∧
    ((Editor.step (Editor.initEditor ⟨none, [[]]⟩ (80, 24))
        (Event.key (KeyCode.char 'a') false)).bind fun r =>
      Editor.step r.1 (Event.key (KeyCode.char 'z') false)) = none := by
  refine ⟨by decide, by decide, by decide⟩

/-- C6: the claim's boundary behaviors hold for moving left at column 0,
moving up at row 0 and moving right at end-of-line, but
backspace/delete-before-cursor at (0, 0) is not the claimed no-op: on a
non-empty first line the code evaluates `line.remove(self.cur_pos.0 - 1)`
with `cur_pos.0 = 0`, a `usize` underflow (debug panic; in release the
wrapped index makes `String::remove` panic). -/
theorem c6_backspace_at_origin_panics :
    Editor.step
      { Editor.initEditor ⟨none, [['a', 'b', 'c']]⟩ (80, 24) with mode := Mode.Insert }
      (Event.key KeyCode.backspace false) = none ∧
    (Editor.applyAction (Editor.initEditor ⟨none, [['a', 'b', 'c']]⟩ (80, 24))
        Action.MoveLeft).map (fun r => r.1.cur_pos) = some (0, 0) ∧
    (Editor.applyAction (Editor.initEditor ⟨none, [['a', 'b', 'c']]⟩ (80, 24))
        Action.MoveUp).map (fun r => r.1.cur_pos) = some (0, 0) ∧
    (Editor.applyAction
        { Editor.initEditor ⟨none, [['a', 'b', 'c']]⟩ (80, 24) with cur_pos := (3, 0) }
        Action.MoveRight).map (fun r => r.1.cur_pos) = some (3, 0) := by
  refine ⟨by decide, by decide, by decide, by decide⟩

/-- C7 counterexample: loading then saving the CRLF text `"a\r\nb"` yields
`"a\nb"`: the `\r` is lost, which is not a trailing-newline difference in
either direction, so `save(load(text)) == text` modulo a final newline fails
for this file content. -/
theorem c7_crlf_not_round_tripped :
    (Buffer.save (Buffer.from_file (some ("f".data)) ("a\r\nb".data))).toOption.map
        Prod.fst = some ("a\nb".data) ∧
    "a\nb".data ≠ "a\r\nb".data ∧
    "a\r\nb".data ≠ "a\nb".data ++ ['\n'] ∧
    "a\nb".data ≠ "a\r\nb".data ++ ['\n'] := by
  refine ⟨by decide, by decide, by decide, by decide⟩

/-- C7 (amended): for every file content containing no carriage-return
characters, loading it into a buffer and immediately saving reproduces the
original content exactly, up to a single trailing-newline normalization. -/
theorem c7_roundtrip_no_cr (p t : List Char) (h : '\r' ∉ t) :
    ∃ msg, Buffer.save (Buffer.from_file (some p) t) =
        Except.ok (joinNl (rustLines t), msg) ∧
      (joinNl (rustLines t) = t ∨ t = joinNl (rustLines t) ++ ['\n']) :=
  ⟨_, rfl, roundtrip_no_cr t h⟩

/-- C7 witness: the amended round-trip at the concrete content `"ab\ncd"`. -/
theorem c7_roundtrip_no_cr_witness :
    ∃ msg, Buffer.save (Buffer.from_file (some ("f".data)) ("ab\ncd".data)) =
        Except.ok (joinNl (rustLines ("ab\ncd".data)), msg) ∧
      (joinNl (rustLines ("ab\ncd".data)) = "ab\ncd".data ∨
        "ab\ncd".data = joinNl (rustLines ("ab\ncd".data)) ++ ['\n']) :=
  c7_roundtrip_no_cr ("f".data) ("ab\ncd".data) (by decide)

/-- C8: `save` succeeds exactly when a target path is known; on success the
written contents are the lines joined by newline and the returned message
contains the debug-escaped path (the raw path whenever the path has no
characters that `{:?}` formatting escapes), the decimal line count (followed
by `L`) and the decimal byte count of the written contents (followed by `B`);
with no path it fails with the `io::Error` message.  `save` takes the buffer
immutably, so the buffer is unchanged in both cases. -/
theorem c8_save_contract (b : Buffer) :
    ((∃ out, Buffer.save b = Except.ok out) ↔ b.file.isSome = true) ∧
    (b.file = none →
      Buffer.save b = Except.error ("No file specified to save the buffer.".data)) ∧
    (∀ p out, b.file = some p → Buffer.save b = Except.ok out →
      out.1 = joinNl b.lines ∧
      List.IsInfix (escapeDebug p) out.2 ∧
      ((∀ c ∈ p, escapeDebugChar c = [c]) → List.IsInfix p out.2) ∧
      List.IsInfix (natChars b.lines.length ++ ['L']) out.2 ∧
      List.IsInfix (natChars (utf8Len out.1) ++ ['B']) out.2) := by
  rcases hb : b.file with _ | p0
  · refine ⟨?_, fun _ => ?_, fun p out hp _ => Option.noConfusion hp⟩
    · simp [Buffer.save, hb]
    · simp [Buffer.save, hb]
  · refine ⟨?_, fun hn => Option.noConfusion hn, fun p out hp hok => ?_⟩
    · simp [Buffer.save, hb]
    · obtain rfl := Option.some.inj hp
      simp only [Buffer.save, hb, Except.ok.injEq] at hok
      obtain rfl := hok
      refine ⟨rfl, path_infix_saveMessage p0 _ _, fun hplain => ?_,
        lineCount_infix_saveMessage p0 _ _, byteCount_infix_saveMessage p0 _ _⟩
      have hinf := path_infix_saveMessage p0 b.lines.length (utf8Len (joinNl b.lines))
      rw [escapeDebug_of_plain hplain] at hinf
      exact hinf

/-- C8 witness: the save contract instantiated at the concrete buffer with
path `f` and lines `ab`, `c`; the path `f` has no escapable characters, so
the message contains it raw. -/
theorem c8_save_contract_witness :
    "ab\nc".data = joinNl ["ab".data, "c".data] ∧
    List.IsInfix (escapeDebug ("f".data)) ("\"f\" 2L, 4B written".data) ∧
    List.IsInfix ("f".data) ("\"f\" 2L, 4B written".data) ∧
    List.IsInfix (natChars 2 ++ ['L']) ("\"f\" 2L, 4B written".data) ∧
    List.IsInfix (natChars 4 ++ ['B']) ("\"f\" 2L, 4B written".data) :=
  let h := (c8_save_contract ⟨some ("f".data), ["ab".data, "c".data]⟩).2.2 ("f".data)
    ("ab\nc".data, "\"f\" 2L, 4B written".data) rfl rfl
  ⟨h.1, h.2.1, h.2.2.1 (by decide), h.2.2.2.1, h.2.2.2.2⟩

/-- C9 counterexample: classifying the `a` key in normal mode is not pure: it
moves the cursor column from 0 to 1 before any action is applied. -/
theorem c9_classifier_mutates_cursor :
    (Editor.initEditor ⟨none, [['x']]⟩ (80, 24)).cur_pos = (0, 0) ∧
    (Editor.handle_event (Editor.initEditor ⟨none, [['x']]⟩ (80, 24))
        (Event.key (KeyCode.char 'a') false)).map (fun r => (r.1.cur_pos, r.2)) =
      some ((1, 0), some (Action.EnterMode Mode.Insert)) := by
  refine ⟨by decide, by decide⟩

/-- C9 (amended): the classification step never mutates the buffer — it may
update the cursor (the `a` key), the command-line accumulator, the pending
leader and the stored terminal size, while all buffer mutation happens when
the action is applied by the interpreter. -/
theorem c9_classifier_preserves_buffer (e : Editor) (ev : Event) :
    ∀ r, Editor.handle_event e ev = some r → r.1.buffer = e.buffer :=
  fun _ h => (handle_event_frame h).1

/-- C9 witness: the buffer-preservation of classification at a concrete state
and event. -/
theorem c9_classifier_preserves_buffer_witness :
    ((Editor.initEditor ⟨none, [['x']]⟩ (80, 24), some Action.Quit) :
        Editor × Option Action).1.buffer =
      (Editor.initEditor ⟨none, [['x']]⟩ (80, 24)).buffer :=
  c9_classifier_preserves_buffer (Editor.initEditor ⟨none, [['x']]⟩ (80, 24))
    (Event.key (KeyCode.char 'q') false)
    (Editor.initEditor ⟨none, [['x']]⟩ (80, 24), some Action.Quit) rfl

/-- C10: in every state reachable from startup, being in command mode implies
the saved anchor cursor position is present; exiting command mode to normal
mode restores the cursor to that anchor (and never fails on a missing one);
and every entry into command mode saves the current cursor position as the
anchor. -/
theorem c10_command_anchor_invariant :
    (∀ (b : Buffer) (sz : Nat × Nat) (evs : List Event) (e2 : Editor),
      Editor.run (Editor.initEditor b sz) evs = some e2 →
        e2.mode = Mode.Command → e2.scur_pos.isSome = true) ∧
    (∀ (e : Editor) (p : Nat × Nat), e.mode = Mode.Command → e.scur_pos = some p →
      Editor.applyAction e (Action.EnterMode Mode.Normal) =
        some ({ e with cur_pos := p, scur_pos := none, command_buffer := [],
                       mode := Mode.Normal }, false)) ∧
    (∀ (e : Editor) (r : Editor × Bool),
      Editor.applyAction e (Action.EnterMode Mode.Command) = some r →
        r.1.scur_pos = some e.cur_pos) := by
  refine ⟨fun b sz evs e2 h => run_anchor (fun hc => Mode.noConfusion hc) h,
    fun e p hm hp => ?_, fun e r h => ?_⟩
  · simp [Editor.applyAction, hm, hp]
  · rcases hs : subChk e.size.2 1 with _ | r2 <;>
      simp [Editor.applyAction, Option.bind_eq_bind', Option.pure_def, hs] at h <;>
      aesop

/-- C10 witness: the invariant after the concrete event sequence `:` entering
command mode, and the anchor restoration from a concrete command-mode state. -/
theorem c10_command_anchor_witness :
    ({ buffer := ⟨none, [['x']]⟩, cur_pos := ((0 : Nat), (23 : Nat)),
       scur_pos := some (0, 0), mode := Mode.Command, size := (80, 24), vtop := 0,
       vleft := 0, waiting_cmd := none, command_buffer := [] } : Editor).scur_pos.isSome =
        true ∧
    Editor.applyAction
        ({ buffer := ⟨none, [['x']]⟩, cur_pos := (0, 23), scur_pos := some (4, 2),
           mode := Mode.Command, size := (80, 24), vtop := 0, vleft := 0,
           waiting_cmd := none, command_buffer := [] } : Editor)
        (Action.EnterMode Mode.Normal) =
      some ({ buffer := ⟨none, [['x']]⟩, cur_pos := (4, 2), scur_pos := none,
              mode := Mode.Normal, size := (80, 24), vtop := 0, vleft := 0,
              waiting_cmd := none, command_buffer := [] }, false) :=
  ⟨c10_command_anchor_invariant.1 ⟨none, [['x']]⟩ (80, 24)
      [Event.key (KeyCode.char ':') false] _ rfl rfl,
    c10_command_anchor_invariant.2.1
      ({ buffer := ⟨none, [['x']]⟩, cur_pos := (0, 23), scur_pos := some (4, 2),
         mode := Mode.Command, size := (80, 24), vtop := 0, vleft := 0,
         waiting_cmd := none, command_buffer := [] } : Editor) (4, 2) rfl rfl⟩

end Oxidate
